import Mathlib

/-!
Shallow embedding of the Voice-Training-Data-Creator core:
the sample store (src/storage/sample_manager.py), the audio capture
buffer (src/audio/recorder.py) and the validators (src/utils/validators.py).
Directories are modelled as association lists from names (strings) to
folders; file contents are modelled structurally (text as the string that
write_text stored, JSON metadata as the key-value map that json.dump
stored, audio files as an optional duration representing what sf.info can
read back, with none standing for an unreadable file).
-/

namespace VTDC

/-! Numeric strings: models of the Python conversions f-string 03d,
str.isdigit and int(name). -/

def toCh (d : ℕ) : Char := Char.ofNat (48 + d)

def digitVal (c : Char) : ℕ := c.toNat - 48

/-- Model of str(n) for a natural number: its base-10 numeral. -/
def natRepr (n : ℕ) : String :=
  if n = 0 then "0" else ⟨((Nat.digits 10 n).reverse).map toCh⟩

/-- Model of the Python format f-string with spec 03d: the numeral left-padded
with zeros to width 3. -/
def pad3 (n : ℕ) : String :=
  ⟨List.replicate (3 - (natRepr n).length) '0' ++ (natRepr n).data⟩

/-- Model of int(s) on a string of decimal digits. -/
def parseNat (s : String) : ℕ :=
  s.data.foldl (fun a c => 10 * a + digitVal c) 0

/-- Model of the Python str.isdigit check (restricted to ASCII digits). -/
def isdigitStr (s : String) : Bool :=
  !s.data.isEmpty && s.data.all Char.isDigit

/-! Data model of the on-disk dataset. A file content is what the store can
write there; an audio file carries the duration that sf.info can read back,
with none standing for a file that sf.info raises on. -/

/-- A JSON object with string keys, as written by json.dump in save_sample. -/
abbrev Meta := List (String × String)

inductive FileData where
  | text (s : String)
  | audio (durInfo : Option ℚ)
  | json (m : Meta)
deriving DecidableEq

structure Folder where
  files : List (String × FileData)
deriving DecidableEq

/-- The samples root: an association list from directory names to folders. -/
abbrev FS := List (String × Folder)

/-- Canonical artifact names, from the f-strings in sample_manager.py. -/
def fileNameWav (n : ℕ) : String := natRepr n ++ ".wav"

def fileNameTxt (n : ℕ) : String := natRepr n ++ ".txt"

def fileNameMeta (n : ℕ) : String := natRepr n ++ "_metadata.json"

/-! File and directory primitives. -/

def findFile : List (String × FileData) → String → Option FileData
  | [], _ => none
  | p :: rest, name => if p.1 = name then some p.2 else findFile rest name

def Folder.read (f : Folder) (name : String) : Option FileData :=
  findFile f.files name

def Folder.hasFile (f : Folder) (name : String) : Bool :=
  (findFile f.files name).isSome

/-- Writing a file: truncate-or-create, as Path.write_text and json.dump do. -/
def writeFiles : List (String × FileData) → String → FileData → List (String × FileData)
  | [], name, d => [(name, d)]
  | p :: rest, name, d => if p.1 = name then (name, d) :: rest else p :: writeFiles rest name d

def Folder.writeFile (f : Folder) (name : String) (d : FileData) : Folder :=
  ⟨writeFiles f.files name d⟩

/-- Renaming a file inside a folder: the entry takes the new name and a
pre-existing entry under the new name is replaced, as Path.rename does. -/
def renameFiles : List (String × FileData) → String → String → List (String × FileData)
  | [], _, _ => []
  | p :: rest, o, n =>
      if p.1 = o then (n, p.2) :: renameFiles rest o n
      else if p.1 = n then renameFiles rest o n
      else p :: renameFiles rest o n

def Folder.renameFile (f : Folder) (o n : String) : Folder :=
  ⟨renameFiles f.files o n⟩

def lookupFS : FS → String → Option Folder
  | [], _ => none
  | e :: rest, name => if e.1 = name then some e.2 else lookupFS rest name

def existsDir (fs : FS) (name : String) : Bool := (lookupFS fs name).isSome

/-- shutil.rmtree on a sample folder. -/
def removeDir : FS → String → FS
  | [], _ => []
  | e :: rest, name => if e.1 = name then removeDir rest name else e :: removeDir rest name

/-- Apply a mutation to the folder stored under the given name. -/
def updateDir : FS → String → (Folder → Folder) → FS
  | [], _, _ => []
  | e :: rest, name, g => (if e.1 = name then (e.1, g e.2) else e) :: updateDir rest name g

def renameEntries : FS → String → String → FS
  | [], _, _ => []
  | e :: rest, o, n => (if e.1 = o then (n, e.2) else e) :: renameEntries rest o n

/-- Path.rename on a directory: fails (raises) when the source is missing or
the destination name already exists. -/
def renameDir (fs : FS) (o n : String) : Option FS :=
  if existsDir fs o && !existsDir fs n then some (renameEntries fs o n) else none

/-- Path.mkdir with parents and exist_ok. -/
def mkdirP (fs : FS) (name : String) : FS :=
  if existsDir fs name then fs else fs ++ [(name, ⟨[]⟩)]

/-! SampleManager operations, translated from sample_manager.py. -/

/-- The numbers of the purely numeric subdirectories of the samples root. -/
def numericNums (fs : FS) : List ℕ :=
  fs.filterMap (fun e => if isdigitStr e.1 then some (parseNat e.1) else none)

/-- SampleManager.get_next_sample_number. -/
def get_next_sample_number (fs : FS) : ℕ :=
  let existing := numericNums fs
  if existing.isEmpty then 1 else existing.foldl max 0 + 1

/-- SampleManager.get_sample_folder gives the folder name for a number. -/
def get_sample_folder (n : ℕ) : String := pad3 n

/-- SampleManager.get_total_samples. -/
def get_total_samples (fs : FS) : ℕ :=
  (fs.filter (fun e => isdigitStr e.1)).length

/-- The final step of save_sample: the metadata file is written only when the
metadata argument is truthy in the Python sense, so neither for None nor for
the empty dict. -/
def saveMetaStep (fs : FS) (name : String) (num : ℕ) : Option Meta → FS
  | some m => if m.isEmpty then fs
      else updateDir fs name (fun f => f.writeFile (fileNameMeta num) (FileData.json m))
  | none => fs

/-- SampleManager.save_sample: allocate the next number, make the folder,
write the text file, move the audio into place, and write the metadata file
when the metadata argument is truthy. The audio argument is the duration
info carried by the moved file. -/
def save_sample (fs : FS) (audio : Option ℚ) (text : String) (metadata : Option Meta) :
    FS × Bool × Option String :=
  let num := get_next_sample_number fs
  let name := get_sample_folder num
  let fs1 := mkdirP fs name
  let fs2 := updateDir fs1 name (fun f => f.writeFile (fileNameTxt num) (FileData.text text))
  let fs3 := updateDir fs2 name (fun f => f.writeFile (fileNameWav num) (FileData.audio audio))
  (saveMetaStep fs3 name num metadata, true, none)

structure SampleInfo where
  number : ℕ
  has_audio : Bool
  has_text : Bool
  has_metadata : Bool
  text_content : Option String
  text_length : Option ℕ
  metadata : Option Meta
deriving DecidableEq

def readTextData : Option FileData → Option String
  | some (FileData.text s) => some s
  | _ => none

def readJsonData : Option FileData → Option Meta
  | some (FileData.json m) => some m
  | _ => none

/-- SampleManager.get_sample_info: none when the folder is missing, else the
record of existence flags, text content and length, and parsed metadata. -/
def get_sample_info (fs : FS) (num : ℕ) : Option SampleInfo :=
  (lookupFS fs (get_sample_folder num)).map (fun folder =>
    let tc := readTextData (folder.read (fileNameTxt num))
    { number := num,
      has_audio := folder.hasFile (fileNameWav num),
      has_text := folder.hasFile (fileNameTxt num),
      has_metadata := folder.hasFile (fileNameMeta num),
      text_content := tc,
      text_length := tc.map String.length,
      metadata := readJsonData (folder.read (fileNameMeta num)) })

/-- Seconds contributed by one directory entry in estimate_total_duration:
sf.info succeeds only on a readable audio file; a missing or unreadable file
contributes nothing (the except branch passes). -/
def entrySeconds (e : String × Folder) : ℚ :=
  if isdigitStr e.1 then
    match e.2.read (fileNameWav (parseNat e.1)) with
    | some (FileData.audio (some d)) => d
    | _ => 0
  else 0

def totalSeconds : FS → ℚ
  | [] => 0
  | e :: rest => entrySeconds e + totalSeconds rest

/-- SampleManager.estimate_total_duration; the sampleRate parameter is
accepted and ignored, as in the source. -/
def estimate_total_duration (fs : FS) (sampleRate : ℕ) : ℚ :=
  totalSeconds fs / 60

/-- The per-folder renames of the up-to-three artifact files performed by
delete_sample after the containing folder was renamed. -/
def shiftFolderFiles (oldNum : ℕ) (f : Folder) : Folder :=
  let f1 := if f.hasFile (fileNameWav oldNum)
    then f.renameFile (fileNameWav oldNum) (fileNameWav (oldNum - 1)) else f
  let f2 := if f1.hasFile (fileNameTxt oldNum)
    then f1.renameFile (fileNameTxt oldNum) (fileNameTxt (oldNum - 1)) else f1
  if f2.hasFile (fileNameMeta oldNum)
    then f2.renameFile (fileNameMeta oldNum) (fileNameMeta (oldNum - 1)) else f2

/-- One renumbering step of delete_sample: rename folder oldNum to
oldNum - 1, then rename the artifact files inside it. -/
def renumberOne (fs : FS) (oldNum : ℕ) : Option FS :=
  match renameDir fs (get_sample_folder oldNum) (get_sample_folder (oldNum - 1)) with
  | none => none
  | some fs1 => some (updateDir fs1 (get_sample_folder (oldNum - 1)) (shiftFolderFiles oldNum))

/-- The renumbering loop; a raised error stops the loop and leaves the
partially renumbered tree in place. -/
def renumberAll : FS → List ℕ → FS × Bool
  | fs, [] => (fs, true)
  | fs, m :: rest =>
      match renumberOne fs m with
      | some fs1 => renumberAll fs1 rest
      | none => (fs, false)

/-- SampleManager.delete_sample: report an error when the folder is missing,
otherwise remove it and renumber every higher-numbered sample downward,
processing the candidates in ascending order. -/
def delete_sample (fs : FS) (num : ℕ) : FS × Bool × Option String :=
  if !existsDir fs (get_sample_folder num) then
    (fs, false, some ("Sample " ++ natRepr num ++ " not found"))
  else
    let fs1 := removeDir fs (get_sample_folder num)
    let candidates := (numericNums fs1).filter (fun m => decide (num < m))
    let sorted := List.insertionSort (· ≤ ·) candidates
    match renumberAll fs1 sorted with
    | (fs2, true) => (fs2, true, none)
    | (fs2, false) => (fs2, false, some ("rename failed"))

/-! Canonical dataset states: the states an application run can produce,
with sample k stored under folder pad3 k holding artifacts named with k. -/

structure SampleData where
  text : Option String
  audio : Option (Option ℚ)
  meta : Option Meta
deriving DecidableEq

def mkFolder (k : ℕ) (s : SampleData) : Folder :=
  ⟨(match s.text with | some t => [(fileNameTxt k, FileData.text t)] | none => []) ++
   (match s.audio with | some a => [(fileNameWav k, FileData.audio a)] | none => []) ++
   (match s.meta with | some m => [(fileNameMeta k, FileData.json m)] | none => [])⟩

def partFS : List SampleData → ℕ → FS
  | [], _ => []
  | s :: rest, k => (pad3 k, mkFolder k s) :: partFS rest (k + 1)

def mkFS (l : List SampleData) : FS := partFS l 1

/-- The metadata actually persisted by save_sample for a given argument. -/
def normMeta : Option Meta → Option Meta
  | some m => if m.isEmpty then none else some m
  | none => none

/-- The sample record that save_sample persists. -/
def savedSample (audio : Option ℚ) (text : String) (metadata : Option Meta) : SampleData :=
  ⟨some text, some audio, normMeta metadata⟩

/-- A concrete example sample used in witness statements. -/
def sdEx (n : ℕ) : SampleData := ⟨some (natRepr n), some (some (n : ℚ)), none⟩

/-! Reachable dataset states and the contiguity invariant. -/

/-- The dataset states reachable from an empty samples root by save and
delete operations. -/
inductive Reach : FS → Prop
  | empty : Reach []
  | save (fs : FS) (a : Option ℚ) (t : String) (m : Option Meta) :
      Reach fs → Reach (save_sample fs a t m).1
  | del (fs : FS) (n : ℕ) : Reach fs → Reach (delete_sample fs n).1

/-! Aggregate duration on a canonical state. -/

/-- The measured duration of one sample, read from the audio file itself:
zero when the file is missing or unreadable. -/
def sampleDuration (s : SampleData) : ℚ :=
  match s.audio with
  | some (some d) => d
  | _ => 0

/-! Capture buffer: the recording state machine of recorder.py. Frame chunks
are lists of float samples; the session state carries the two flags, the
accumulated chunk list and the open-stream handle. -/

structure RecState where
  is_recording : Bool
  is_paused : Bool
  audio_data : List (List ℚ)
  stream_open : Bool
deriving DecidableEq

/-- The state of a freshly constructed AudioRecorder. -/
def initRec : RecState := ⟨false, false, [], false⟩

/-- AudioRecorder.start_recording: a no-op while already recording, else
clears the buffer, resets the pause flag and opens the stream. -/
def start_recording (s : RecState) : RecState :=
  if s.is_recording then s
  else { s with audio_data := [], is_recording := true, is_paused := false,
                stream_open := true }

/-- The frame callback: appends the arriving chunk only while recording and
not paused. -/
def audio_callback (s : RecState) (chunk : List ℚ) : RecState :=
  if s.is_recording && !s.is_paused then { s with audio_data := s.audio_data ++ [chunk] }
  else s

/-- AudioRecorder.pause_recording. -/
def pause_recording (s : RecState) : RecState :=
  if s.is_recording && !s.is_paused then { s with is_paused := true } else s

/-- AudioRecorder.resume_recording. -/
def resume_recording (s : RecState) : RecState :=
  if s.is_recording && s.is_paused then { s with is_paused := false } else s

/-- AudioRecorder.stop_recording: immediately none while idle; otherwise
clears the flags, closes the stream, and returns the concatenation of the
buffered chunks, or none when nothing was captured. -/
def stop_recording (s : RecState) : Option (List ℚ) × RecState :=
  if !s.is_recording then (none, s)
  else
    let s1 : RecState := { s with is_recording := false, is_paused := false,
                                  stream_open := false }
    if s1.audio_data.isEmpty then (none, s1)
    else (some s1.audio_data.flatten, { s1 with audio_data := [] })

/-- The events a recording session can receive between start and stop. -/
inductive RecEvent where
  | frame (c : List ℚ)
  | pause
  | resume
deriving DecidableEq

def stepRec (s : RecState) : RecEvent → RecState
  | RecEvent.frame c => audio_callback s c
  | RecEvent.pause => pause_recording s
  | RecEvent.resume => resume_recording s

def runRec (s : RecState) : List RecEvent → RecState
  | [] => s
  | e :: rest => runRec (stepRec s e) rest

/-- Specification side: the chunks that arrive while the session is not
paused, in arrival order, given the pause flag at the start. -/
def capturedChunks : Bool → List RecEvent → List (List ℚ)
  | _, [] => []
  | paused, RecEvent.frame c :: rest =>
      if paused then capturedChunks paused rest else c :: capturedChunks paused rest
  | _, RecEvent.pause :: rest => capturedChunks true rest
  | _, RecEvent.resume :: rest => capturedChunks false rest

/-! Validators, translated from validators.py. Waveforms are lists of
rational amplitudes; a missing waveform is none. -/

/-- The peak absolute amplitude of a waveform, as np.abs(w).max() computes
it on a non-empty array. -/
def maxAbs (w : List ℚ) : ℚ := w.foldl (fun m x => max m |x|) 0

/-- Validators.validate_audio_data. -/
def validate_audio_data (a : Option (List ℚ)) : Bool × Option String :=
  match a with
  | none => (false, some ("No audio data recorded"))
  | some w =>
      if w.length = 0 then (false, some ("Audio recording is empty"))
      else if maxAbs w < 1 / 1000 then
        (false, some ("Audio appears to be silent. Please check your microphone."))
      else (true, none)

/-- Python str.strip: drop whitespace from both ends. -/
def pyStrip (s : String) : String :=
  ⟨((s.data.dropWhile Char.isWhitespace).reverse.dropWhile Char.isWhitespace).reverse⟩

/-- Validators.validate_text_content. -/
def validate_text_content (t : String) : Bool × Option String :=
  if t.data.isEmpty || (pyStrip t).data.isEmpty then
    (false, some ("Text content is empty"))
  else if (pyStrip t).data.length < 10 then
    (false, some ("Text is too short (minimum 10 characters)"))
  else (true, none)

/-- The loop state of detect_long_silence: the longest silent run seen so
far and the current silent run. -/
def silentStep (th : ℚ) (p : ℕ × ℕ) (x : ℚ) : ℕ × ℕ :=
  if |x| < th then (max p.1 (p.2 + 1), p.2 + 1) else (p.1, 0)

def maxSilentRun (w : List ℚ) (th : ℚ) : ℕ := (w.foldl (silentStep th) (0, 0)).1

/-- Validators.detect_long_silence. -/
def detect_long_silence (w : Option (List ℚ)) (threshold minDuration : ℚ)
    (sampleRate : ℕ) : Bool :=
  match w with
  | none => false
  | some l =>
      if l.isEmpty then false
      else decide (minDuration ≤ (maxSilentRun l threshold : ℚ) / (sampleRate : ℚ))

/-! Specification side of long-silence detection: the longest run of
consecutive samples below the threshold. -/

/-- Length of the silent prefix of a waveform. -/
def leadSilent (th : ℚ) : List ℚ → ℕ
  | [] => 0
  | x :: r => if |x| < th then leadSilent th r + 1 else 0

/-- The longest run of consecutive silent samples: the maximum over all
suffixes of the length of their silent prefix. -/
def longestSilentRun (th : ℚ) : List ℚ → ℕ
  | [] => 0
  | x :: r => max (leadSilent th (x :: r)) (longestSilentRun th r)

/-- Helper: longest silent run when a run of length c is already open. -/
def extRun (th : ℚ) : ℕ → List ℚ → ℕ
  | c, [] => c
  | c, x :: r => if |x| < th then extRun th (c + 1) r else max c (extRun th 0 r)

lemma digitVal_toCh {d : ℕ} (h : d < 10) : digitVal (toCh d) = d := by
  interval_cases d <;> decide

lemma isDigit_toCh {d : ℕ} (h : d < 10) : (toCh d).isDigit = true := by
  interval_cases d <;> decide

lemma foldl_step_map_toCh (L : List ℕ) (hL : ∀ d ∈ L, d < 10) (a : ℕ) :
    (L.map toCh).foldl (fun a c => 10 * a + digitVal c) a
      = L.foldl (fun a d => 10 * a + d) a := by
  induction L generalizing a with
  | nil => rfl
  | cons d L ih =>
      simp only [List.map_cons, List.foldl_cons]
      rw [digitVal_toCh (hL d (by simp))]
      exact ih (fun x hx => hL x (by simp [hx])) _

lemma foldl_step_eq_ofDigits (L : List ℕ) (a : ℕ) :
    L.foldl (fun a d => 10 * a + d) a
      = a * 10 ^ L.length + Nat.ofDigits 10 L.reverse := by
  induction L generalizing a with
  | nil => simp [Nat.ofDigits]
  | cons d L ih =>
      simp only [List.foldl_cons, List.reverse_cons, List.length_cons]
      rw [ih, Nat.ofDigits_append]
      simp [Nat.ofDigits, pow_succ]
      ring

lemma parseNat_natRepr (n : ℕ) : parseNat (natRepr n) = n := by
  by_cases h : n = 0
  · subst h; decide
  · unfold parseNat natRepr
    rw [if_neg h]
    show (((Nat.digits 10 n).reverse).map toCh).foldl _ 0 = n
    rw [foldl_step_map_toCh _ (fun d hd => by
      exact Nat.digits_lt_base (by norm_num) (List.mem_reverse.mp hd))]
    rw [foldl_step_eq_ofDigits]
    simp [Nat.ofDigits_digits]

lemma foldl_step_replicate_zero (k : ℕ) :
    (List.replicate k '0').foldl (fun a c => 10 * a + digitVal c) 0 = 0 := by
  induction k with
  | zero => rfl
  | succ k ih => simpa [List.replicate_succ, digitVal] using ih

lemma parseNat_pad3 (n : ℕ) : parseNat (pad3 n) = n := by
  unfold pad3
  show (List.replicate (3 - (natRepr n).length) '0' ++ (natRepr n).data).foldl _ 0 = n
  rw [List.foldl_append, foldl_step_replicate_zero]
  exact parseNat_natRepr n

lemma pad3_injective : Function.Injective pad3 := by
  intro a b h
  have := parseNat_pad3 a
  rw [h, parseNat_pad3] at this
  omega

lemma pad3_ne {a b : ℕ} (h : a ≠ b) : pad3 a ≠ pad3 b :=
  fun hc => h (pad3_injective hc)

lemma natRepr_ne_nil (n : ℕ) : (natRepr n).data ≠ [] := by
  unfold natRepr
  by_cases h : n = 0
  · simp [h]
  · rw [if_neg h]
    simp only
    intro hc
    have hd : (Nat.digits 10 n) ≠ [] := Nat.digits_ne_nil_iff_ne_zero.mpr h
    have := congrArg List.length hc
    simp at this
    exact hd this

lemma isdigit_pad3 (n : ℕ) : isdigitStr (pad3 n) = true := by
  unfold isdigitStr pad3
  simp only [Bool.and_eq_true, List.all_eq_true]
  constructor
  · simp only [Bool.not_eq_true']
    rw [Bool.eq_false_iff, Ne, List.isEmpty_iff]
    intro hc
    rcases List.append_eq_nil.mp hc with ⟨_, h2⟩
    exact natRepr_ne_nil n h2
  · intro c hc
    rcases List.mem_append.mp hc with h | h
    · rw [List.eq_of_mem_replicate h]; decide
    · unfold natRepr at h
      by_cases h0 : n = 0
      · rw [h0] at h; simp at h; rw [h]; decide
      · rw [if_neg h0] at h
        simp only at h
        rcases List.mem_map.mp h with ⟨d, hd, rfl⟩
        exact isDigit_toCh (Nat.digits_lt_base (by norm_num) (List.mem_reverse.mp hd))

/-! Facts about artifact file names. -/

lemma natRepr_injective : Function.Injective natRepr := by
  intro a b h
  have := parseNat_natRepr a
  rw [h, parseNat_natRepr] at this
  omega

lemma data_append (s t : String) : (s ++ t).data = s.data ++ t.data := rfl

lemma getLast_append_str (s t : String) (h : t.data ≠ []) :
    (s ++ t).data.getLast? = t.data.getLast? := by
  rw [data_append]
  exact List.getLast?_append_of_ne_nil _ h

lemma fileNameWav_ne_txt (a b : ℕ) : fileNameWav a ≠ fileNameTxt b := by
  intro h
  have h2 := congrArg (fun s => s.data.getLast?) h
  simp only [fileNameWav, fileNameTxt] at h2
  rw [getLast_append_str _ _ (by decide), getLast_append_str _ _ (by decide)] at h2
  exact absurd h2 (by decide)

lemma fileNameWav_ne_meta (a b : ℕ) : fileNameWav a ≠ fileNameMeta b := by
  intro h
  have h2 := congrArg (fun s => s.data.getLast?) h
  simp only [fileNameWav, fileNameMeta] at h2
  rw [getLast_append_str _ _ (by decide), getLast_append_str _ _ (by decide)] at h2
  exact absurd h2 (by decide)

lemma fileNameTxt_ne_meta (a b : ℕ) : fileNameTxt a ≠ fileNameMeta b := by
  intro h
  have h2 := congrArg (fun s => s.data.getLast?) h
  simp only [fileNameTxt, fileNameMeta] at h2
  rw [getLast_append_str _ _ (by decide), getLast_append_str _ _ (by decide)] at h2
  exact absurd h2 (by decide)

lemma strAppend_right_inj {s t u : String} (h : s ++ u = t ++ u) : s = t := by
  have hd : s.data ++ u.data = t.data ++ u.data := by
    rw [← data_append, ← data_append, h]
  have h2 := (List.append_inj' hd rfl).1
  cases s; cases t
  exact congrArg String.mk h2

lemma fileNameWav_inj {a b : ℕ} (h : fileNameWav a = fileNameWav b) : a = b :=
  natRepr_injective (strAppend_right_inj h)

lemma fileNameTxt_inj {a b : ℕ} (h : fileNameTxt a = fileNameTxt b) : a = b :=
  natRepr_injective (strAppend_right_inj h)

lemma fileNameMeta_inj {a b : ℕ} (h : fileNameMeta a = fileNameMeta b) : a = b :=
  natRepr_injective (strAppend_right_inj h)

lemma fileNameWav_ne {a b : ℕ} (h : a ≠ b) : fileNameWav a ≠ fileNameWav b :=
  fun hc => h (fileNameWav_inj hc)

lemma fileNameTxt_ne {a b : ℕ} (h : a ≠ b) : fileNameTxt a ≠ fileNameTxt b :=
  fun hc => h (fileNameTxt_inj hc)

lemma fileNameMeta_ne {a b : ℕ} (h : a ≠ b) : fileNameMeta a ≠ fileNameMeta b :=
  fun hc => h (fileNameMeta_inj hc)

lemma fileNameTxt_ne_wav (a b : ℕ) : fileNameTxt a ≠ fileNameWav b :=
  fun h => fileNameWav_ne_txt b a h.symm

lemma fileNameMeta_ne_wav (a b : ℕ) : fileNameMeta a ≠ fileNameWav b :=
  fun h => fileNameWav_ne_meta b a h.symm

lemma fileNameMeta_ne_txt (a b : ℕ) : fileNameMeta a ≠ fileNameTxt b :=
  fun h => fileNameTxt_ne_meta b a h.symm

/-! Reading the canonical folder of a sample. -/

lemma read_mkFolder_txt (k : ℕ) (s : SampleData) :
    (mkFolder k s).read (fileNameTxt k) = s.text.map FileData.text := by
  rcases s with ⟨t, a, m⟩
  rcases t with _ | t <;> rcases a with _ | a <;> rcases m with _ | m <;>
    simp [mkFolder, Folder.read, findFile,
      fileNameWav_ne_txt k k, fileNameMeta_ne_txt k k]

lemma read_mkFolder_wav (k : ℕ) (s : SampleData) :
    (mkFolder k s).read (fileNameWav k) = s.audio.map FileData.audio := by
  rcases s with ⟨t, a, m⟩
  rcases t with _ | t <;> rcases a with _ | a <;> rcases m with _ | m <;>
    simp [mkFolder, Folder.read, findFile,
      fileNameTxt_ne_wav k k, fileNameMeta_ne_wav k k]

lemma read_mkFolder_meta (k : ℕ) (s : SampleData) :
    (mkFolder k s).read (fileNameMeta k) = s.meta.map FileData.json := by
  rcases s with ⟨t, a, m⟩
  rcases t with _ | t <;> rcases a with _ | a <;> rcases m with _ | m <;>
    simp [mkFolder, Folder.read, findFile,
      fileNameTxt_ne_meta k k, fileNameWav_ne_meta k k]

/-! Structure of canonical states. -/

lemma partFS_append (a b : List SampleData) (s : ℕ) :
    partFS (a ++ b) s = partFS a s ++ partFS b (s + a.length) := by
  induction a generalizing s with
  | nil => simp [partFS]
  | cons x a ih =>
      simp only [List.cons_append, partFS, List.length_cons, List.append_eq]
      rw [ih, show s + 1 + a.length = s + (a.length + 1) from by omega]

lemma length_partFS (l : List SampleData) (s : ℕ) : (partFS l s).length = l.length := by
  induction l generalizing s with
  | nil => rfl
  | cons x l ih => simp [partFS, ih]

lemma numericNums_append (f1 f2 : FS) :
    numericNums (f1 ++ f2) = numericNums f1 ++ numericNums f2 := by
  simp [numericNums]

lemma numericNums_partFS (l : List SampleData) (s : ℕ) :
    numericNums (partFS l s) = List.range' s l.length := by
  induction l generalizing s with
  | nil => rfl
  | cons x l ih =>
      simp only [partFS, numericNums, List.filterMap_cons, isdigit_pad3, if_pos,
        List.length_cons, List.range'_succ, parseNat_pad3]
      rw [← numericNums, ih]

lemma lookup_partFS_out (a : List SampleData) (rest : FS) (s k : ℕ)
    (h : k < s ∨ s + a.length ≤ k) :
    lookupFS (partFS a s ++ rest) (pad3 k) = lookupFS rest (pad3 k) := by
  induction a generalizing s with
  | nil => rfl
  | cons x a ih =>
      simp only [partFS, List.cons_append, lookupFS]
      rw [if_neg (pad3_ne (a := s) (b := k) (by simp at h; omega))]
      exact ih (s + 1) (by simp at h; omega)

lemma lookup_partFS_in (a1 : List SampleData) (x : SampleData) (a2 : List SampleData)
    (rest : FS) (s : ℕ) :
    lookupFS (partFS (a1 ++ x :: a2) s ++ rest) (pad3 (s + a1.length))
      = some (mkFolder (s + a1.length) x) := by
  induction a1 generalizing s with
  | nil => simp [partFS, lookupFS]
  | cons y a1 ih =>
      simp only [List.cons_append, partFS, lookupFS, List.length_cons]
      rw [if_neg (pad3_ne (by omega))]
      have := ih (s + 1)
      rw [show s + 1 + a1.length = s + (a1.length + 1) from by omega] at this
      exact this

lemma removeDir_append (f1 f2 : FS) (n : String) :
    removeDir (f1 ++ f2) n = removeDir f1 n ++ removeDir f2 n := by
  induction f1 with
  | nil => rfl
  | cons e f1 ih =>
      simp only [List.cons_append, removeDir]
      split <;> simp [ih]

lemma removeDir_partFS_out (a : List SampleData) (s k : ℕ)
    (h : k < s ∨ s + a.length ≤ k) :
    removeDir (partFS a s) (pad3 k) = partFS a s := by
  induction a generalizing s with
  | nil => rfl
  | cons x a ih =>
      simp only [partFS, removeDir]
      rw [if_neg (pad3_ne (a := s) (b := k) (by simp at h; omega))]
      rw [ih (s + 1) (by simp at h; omega)]

lemma updateDir_append (f1 f2 : FS) (n : String) (g : Folder → Folder) :
    updateDir (f1 ++ f2) n g = updateDir f1 n g ++ updateDir f2 n g := by
  induction f1 with
  | nil => rfl
  | cons e f1 ih => simp [updateDir, ih]

lemma updateDir_partFS_out (a : List SampleData) (s k : ℕ) (g : Folder → Folder)
    (h : k < s ∨ s + a.length ≤ k) :
    updateDir (partFS a s) (pad3 k) g = partFS a s := by
  induction a generalizing s with
  | nil => rfl
  | cons x a ih =>
      simp only [partFS, updateDir]
      rw [if_neg (pad3_ne (a := s) (b := k) (by simp at h; omega))]
      rw [ih (s + 1) (by simp at h; omega)]

lemma renameEntries_append (f1 f2 : FS) (o n : String) :
    renameEntries (f1 ++ f2) o n = renameEntries f1 o n ++ renameEntries f2 o n := by
  induction f1 with
  | nil => rfl
  | cons e f1 ih => simp [renameEntries, ih]

lemma renameEntries_partFS_out (a : List SampleData) (s k : ℕ) (n : String)
    (h : k < s ∨ s + a.length ≤ k) :
    renameEntries (partFS a s) (pad3 k) n = partFS a s := by
  induction a generalizing s with
  | nil => rfl
  | cons x a ih =>
      simp only [partFS, renameEntries]
      rw [if_neg (pad3_ne (a := s) (b := k) (by simp at h; omega))]
      rw [ih (s + 1) (by simp at h; omega)]

/-! The allocation of the next sample number. -/

lemma foldl_max_range' (n : ℕ) : ∀ (s a : ℕ),
    (List.range' s n).foldl max a = if n = 0 then a else max a (s + n - 1) := by
  induction n with
  | zero => intro s a; rfl
  | succ n ih =>
      intro s a
      rw [List.range'_succ, List.foldl_cons, ih]
      split <;> split <;> omega

lemma get_next_mkFS (l : List SampleData) :
    get_next_sample_number (mkFS l) = l.length + 1 := by
  simp only [get_next_sample_number, mkFS, numericNums_partFS]
  cases hl : l.length with
  | zero => rfl
  | succ n =>
      have h1 : (List.range' 1 (n + 1)).isEmpty = false := by
        rw [List.range'_succ]
        rfl
      rw [if_neg (by rw [h1]; exact Bool.false_ne_true)]
      rw [foldl_max_range']
      split <;> omega

lemma lookup_mkFS_out (l : List SampleData) (k : ℕ) (h : k = 0 ∨ l.length < k) :
    lookupFS (mkFS l) (pad3 k) = none := by
  have h2 := lookup_partFS_out l [] 1 k (by omega)
  rw [List.append_nil] at h2
  exact h2

lemma existsDir_mkFS_next (l : List SampleData) :
    existsDir (mkFS l) (pad3 (l.length + 1)) = false := by
  unfold existsDir
  rw [lookup_mkFS_out l _ (by omega)]
  rfl

/-! Computation of save_sample on a canonical state. -/

lemma updateDir_single (n : String) (f : Folder) (g : Folder → Folder) :
    updateDir [(n, f)] n g = [(n, g f)] := by
  simp [updateDir]

lemma updateDir_mkFS_last (l : List SampleData) (f : Folder) (g : Folder → Folder) :
    updateDir (mkFS l ++ [(pad3 (l.length + 1), f)]) (pad3 (l.length + 1)) g
      = mkFS l ++ [(pad3 (l.length + 1), g f)] := by
  simp only [mkFS]
  rw [updateDir_append, updateDir_partFS_out l 1 (l.length + 1) g (by omega),
    updateDir_single]

lemma writeFile_empty (n : String) (d : FileData) :
    Folder.writeFile ⟨[]⟩ n d = ⟨[(n, d)]⟩ := rfl

lemma mkFS_append_single (l : List SampleData) (sd : SampleData) :
    mkFS (l ++ [sd]) = mkFS l ++ [(pad3 (l.length + 1), mkFolder (l.length + 1) sd)] := by
  simp only [mkFS]
  rw [partFS_append]
  simp only [partFS]
  rw [show 1 + l.length = l.length + 1 from by omega]

lemma save_mkFS (l : List SampleData) (a : Option ℚ) (t : String) (mo : Option Meta) :
    save_sample (mkFS l) a t mo = (mkFS (l ++ [savedSample a t mo]), true, none) := by
  have hL := get_next_mkFS l
  have hmk : mkdirP (mkFS l) (pad3 (l.length + 1)) = mkFS l ++ [(pad3 (l.length + 1), ⟨[]⟩)] := by
    unfold mkdirP
    rw [existsDir_mkFS_next]
    rfl
  have hw1 : Folder.writeFile ⟨[]⟩ (fileNameTxt (l.length + 1)) (FileData.text t)
      = ⟨[(fileNameTxt (l.length + 1), FileData.text t)]⟩ := rfl
  have hw2 : Folder.writeFile ⟨[(fileNameTxt (l.length + 1), FileData.text t)]⟩
        (fileNameWav (l.length + 1)) (FileData.audio a)
      = ⟨[(fileNameTxt (l.length + 1), FileData.text t),
          (fileNameWav (l.length + 1), FileData.audio a)]⟩ := by
    simp [Folder.writeFile, writeFiles, fileNameTxt_ne_wav (l.length + 1) (l.length + 1)]
  unfold save_sample
  rw [hL]
  simp only [get_sample_folder]
  rw [hmk, updateDir_mkFS_last, hw1, updateDir_mkFS_last, hw2]
  rw [mkFS_append_single]
  rcases mo with _ | m
  · simp [saveMetaStep, savedSample, normMeta, mkFolder]
  · by_cases hm : m.isEmpty
    · simp [saveMetaStep, hm, savedSample, normMeta, mkFolder]
    · have hwm : Folder.writeFile
          ⟨[(fileNameTxt (l.length + 1), FileData.text t),
            (fileNameWav (l.length + 1), FileData.audio a)]⟩
          (fileNameMeta (l.length + 1)) (FileData.json m)
          = ⟨[(fileNameTxt (l.length + 1), FileData.text t),
              (fileNameWav (l.length + 1), FileData.audio a),
              (fileNameMeta (l.length + 1), FileData.json m)]⟩ := by
        simp [Folder.writeFile, writeFiles,
          fileNameTxt_ne_meta (l.length + 1) (l.length + 1),
          fileNameWav_ne_meta (l.length + 1) (l.length + 1)]
      simp only [saveMetaStep, hm, Bool.false_eq_true, if_false]
      rw [updateDir_mkFS_last, hwm]
      simp [savedSample, normMeta, hm, mkFolder]

/-! Computation of delete_sample on a canonical state. -/

lemma shift_mkFolder (k : ℕ) (s : SampleData) :
    shiftFolderFiles (k + 1) (mkFolder (k + 1) s) = mkFolder k s := by
  have h1 := fileNameWav_ne (show k + 1 ≠ k from by omega)
  have h2 := fileNameTxt_ne (show k + 1 ≠ k from by omega)
  have h3 := fileNameMeta_ne (show k + 1 ≠ k from by omega)
  have h4 := fileNameWav_ne (show k ≠ k + 1 from by omega)
  have h5 := fileNameTxt_ne (show k ≠ k + 1 from by omega)
  have h6 := fileNameMeta_ne (show k ≠ k + 1 from by omega)
  rcases s with ⟨t, a, m⟩
  rcases t with _ | t <;> rcases a with _ | a <;> rcases m with _ | m <;>
    simp [shiftFolderFiles, mkFolder, Folder.hasFile, findFile, Folder.renameFile,
      renameFiles, fileNameWav_ne_txt, fileNameWav_ne_meta, fileNameTxt_ne_wav,
      fileNameTxt_ne_meta, fileNameMeta_ne_wav, fileNameMeta_ne_txt,
      h1, h2, h3, h4, h5, h6]

lemma lookup_partFS_none (a : List SampleData) (s k : ℕ) (h : k < s ∨ s + a.length ≤ k) :
    lookupFS (partFS a s) (pad3 k) = none := by
  have h2 := lookup_partFS_out a [] s k h
  rw [List.append_nil] at h2
  exact h2

lemma renumberOne_mid (l1 : List SampleData) (x : SampleData) (l2 : List SampleData) :
    renumberOne (partFS l1 1 ++ partFS (x :: l2) (l1.length + 2)) (l1.length + 2)
      = some (partFS (l1 ++ [x]) 1 ++ partFS l2 (l1.length + 3)) := by
  have hsrc : existsDir (partFS l1 1 ++ partFS (x :: l2) (l1.length + 2))
      (pad3 (l1.length + 2)) = true := by
    unfold existsDir
    rw [lookup_partFS_out l1 _ 1 _ (by omega)]
    simp [partFS, lookupFS]
  have htgt : existsDir (partFS l1 1 ++ partFS (x :: l2) (l1.length + 2))
      (pad3 (l1.length + 1)) = false := by
    unfold existsDir
    rw [lookup_partFS_out l1 _ 1 _ (by omega)]
    rw [show partFS (x :: l2) (l1.length + 2) = partFS (x :: l2) (l1.length + 2) ++ []
      from by rw [List.append_nil]]
    rw [lookup_partFS_out (x :: l2) [] _ _ (Or.inl (by omega))]
    rfl
  have hren : renameEntries (partFS l1 1 ++ partFS (x :: l2) (l1.length + 2))
        (pad3 (l1.length + 2)) (pad3 (l1.length + 1))
      = partFS l1 1 ++ ((pad3 (l1.length + 1), mkFolder (l1.length + 2) x)
          :: partFS l2 (l1.length + 3)) := by
    rw [renameEntries_append, renameEntries_partFS_out l1 1 _ _ (by omega)]
    simp only [partFS, renameEntries, if_pos]
    rw [renameEntries_partFS_out l2 (l1.length + 3) _ _ (by omega)]
  have hupd : updateDir (partFS l1 1 ++ ((pad3 (l1.length + 1), mkFolder (l1.length + 2) x)
          :: partFS l2 (l1.length + 3)))
        (pad3 (l1.length + 1)) (shiftFolderFiles (l1.length + 2))
      = partFS l1 1 ++ ((pad3 (l1.length + 1), mkFolder (l1.length + 1) x)
          :: partFS l2 (l1.length + 3)) := by
    rw [updateDir_append, updateDir_partFS_out l1 1 _ _ (by omega)]
    simp only [updateDir, if_pos]
    rw [updateDir_partFS_out l2 (l1.length + 3) _ _ (by omega)]
    rw [show l1.length + 2 = (l1.length + 1) + 1 from by omega, shift_mkFolder]
  unfold renumberOne renameDir
  simp only [get_sample_folder]
  rw [show l1.length + 2 - 1 = l1.length + 1 from by omega]
  rw [hsrc, htgt]
  simp only [Bool.not_false, Bool.and_self, if_pos]
  rw [hren, hupd]
  rw [partFS_append]
  simp [partFS, show 1 + l1.length = l1.length + 1 from by omega]

lemma renumberAll_cons_some (fs fs1 : FS) (m : ℕ) (rest : List ℕ)
    (h : renumberOne fs m = some fs1) :
    renumberAll fs (m :: rest) = renumberAll fs1 rest := by
  rw [show renumberAll fs (m :: rest) = (match renumberOne fs m with
      | some fs1 => renumberAll fs1 rest
      | none => (fs, false)) from rfl, h]

lemma renumberAll_mid (l2 : List SampleData) : ∀ (l1 : List SampleData),
    renumberAll (partFS l1 1 ++ partFS l2 (l1.length + 2))
        (List.range' (l1.length + 2) l2.length)
      = (partFS (l1 ++ l2) 1, true) := by
  induction l2 with
  | nil =>
      intro l1
      simp [renumberAll, partFS]
  | cons x l2 ih =>
      intro l1
      rw [List.length_cons, List.range'_succ]
      rw [renumberAll_cons_some _ _ _ _ (renumberOne_mid l1 x l2)]
      have h2 := ih (l1 ++ [x])
      rw [List.length_append, List.length_singleton] at h2
      rw [show l1.length + 2 + 1 = l1.length + 1 + 2 from by omega]
      rw [show l1.length + 3 = l1.length + 1 + 2 from by omega]
      rw [h2, List.append_assoc, List.singleton_append]

lemma sorted_le_range' (s n : ℕ) : List.Sorted (· ≤ ·) (List.range' s n) := by
  induction n generalizing s with
  | zero => simp
  | succ n ih =>
      rw [List.range'_succ]
      rw [List.sorted_cons]
      refine ⟨fun b hb => ?_, ih (s + 1)⟩
      have := (List.mem_range'_1.mp hb).1
      omega

lemma insertionSort_range' (s n : ℕ) :
    List.insertionSort (· ≤ ·) (List.range' s n) = List.range' s n :=
  List.eq_of_perm_of_sorted (List.perm_insertionSort _ _)
    (List.sorted_insertionSort _ _) (sorted_le_range' s n)

lemma delete_mkFS (l1 : List SampleData) (x : SampleData) (l2 : List SampleData) :
    delete_sample (mkFS (l1 ++ x :: l2)) (l1.length + 1) = (mkFS (l1 ++ l2), true, none) := by
  have hex : existsDir (mkFS (l1 ++ x :: l2)) (pad3 (l1.length + 1)) = true := by
    unfold existsDir mkFS
    rw [show partFS (l1 ++ x :: l2) 1 = partFS (l1 ++ x :: l2) 1 ++ []
      from by rw [List.append_nil]]
    rw [show l1.length + 1 = 1 + l1.length from by omega]
    rw [lookup_partFS_in]
    rfl
  have hrm : removeDir (mkFS (l1 ++ x :: l2)) (pad3 (l1.length + 1))
      = partFS l1 1 ++ partFS l2 (l1.length + 2) := by
    unfold mkFS
    rw [partFS_append, removeDir_append, removeDir_partFS_out l1 1 _ (by omega)]
    simp only [partFS, removeDir]
    rw [if_pos (by rw [show 1 + l1.length = l1.length + 1 from by omega])]
    rw [removeDir_partFS_out l2 (1 + l1.length + 1) _ (by omega)]
    rw [show 1 + l1.length + 1 = l1.length + 2 from by omega]
  have hcand : (numericNums (partFS l1 1 ++ partFS l2 (l1.length + 2))).filter
        (fun m => decide (l1.length + 1 < m))
      = List.range' (l1.length + 2) l2.length := by
    rw [numericNums_append, numericNums_partFS, numericNums_partFS, List.filter_append]
    rw [List.filter_eq_nil_iff.mpr (fun m hm => by
      have := List.mem_range'_1.mp hm
      simp only [decide_eq_true_eq]
      omega)]
    rw [List.filter_eq_self.mpr (fun m hm => by
      have := List.mem_range'_1.mp hm
      simp only [decide_eq_true_eq]
      omega)]
    rfl
  unfold delete_sample
  simp only [get_sample_folder]
  rw [hex]
  simp only [Bool.not_true, Bool.false_eq_true, if_false]
  rw [hrm, hcand, insertionSort_range', renumberAll_mid l2 l1]
  rfl

/-- Deleting a sample whose folder does not exist reports an error and
returns the tree unchanged. -/
lemma delete_missing (fs : FS) (n : ℕ) (h : existsDir fs (pad3 n) = false) :
    delete_sample fs n = (fs, false, some ("Sample " ++ natRepr n ++ " not found")) := by
  unfold delete_sample
  simp only [get_sample_folder]
  rw [h]
  rfl

lemma list_decomp (l : List SampleData) (i : ℕ) (h : i < l.length) :
    ∃ l1 x l2, l = l1 ++ x :: l2 ∧ l1.length = i := by
  induction l generalizing i with
  | nil => simp at h
  | cons y l ih =>
      cases i with
      | zero => exact ⟨[], y, l, rfl, rfl⟩
      | succ i =>
          obtain ⟨l1, x, l2, hl, hlen⟩ := ih i (by simp at h; omega)
          exact ⟨y :: l1, x, l2, by rw [hl]; rfl, by simp [hlen]⟩

lemma existsDir_mkFS_decomp (l : List SampleData) (n : ℕ)
    (h : existsDir (mkFS l) (pad3 n) = true) :
    ∃ l1 x l2, l = l1 ++ x :: l2 ∧ l1.length + 1 = n := by
  by_cases hb : n = 0 ∨ l.length < n
  · rw [existsDir, lookup_mkFS_out l n hb] at h
    simp at h
  · push_neg at hb
    obtain ⟨l1, x, l2, hl, hlen⟩ := list_decomp l (n - 1) (by omega)
    exact ⟨l1, x, l2, hl, by omega⟩

lemma reach_canonical {fs : FS} (h : Reach fs) : ∃ l, fs = mkFS l := by
  induction h with
  | empty => exact ⟨[], rfl⟩
  | save fs a t m _ ih =>
      obtain ⟨l, rfl⟩ := ih
      rw [save_mkFS]
      exact ⟨l ++ [savedSample a t m], rfl⟩
  | del fs n _ ih =>
      obtain ⟨l, rfl⟩ := ih
      by_cases hex : existsDir (mkFS l) (pad3 n) = true
      · obtain ⟨l1, x, l2, rfl, hn⟩ := existsDir_mkFS_decomp l n hex
        subst hn
        rw [delete_mkFS]
        exact ⟨l1 ++ l2, rfl⟩
      · rw [delete_missing (mkFS l) n (by
          cases hx : existsDir (mkFS l) (pad3 n)
          · rfl
          · exact absurd hx hex)]
        exact ⟨l, rfl⟩

lemma filter_numeric_partFS (l : List SampleData) (s : ℕ) :
    (partFS l s).filter (fun e => isdigitStr e.1) = partFS l s := by
  induction l generalizing s with
  | nil => rfl
  | cons y l ih => simp [partFS, List.filter_cons, isdigit_pad3, ih]

lemma get_total_mkFS (l : List SampleData) : get_total_samples (mkFS l) = l.length := by
  unfold get_total_samples mkFS
  rw [filter_numeric_partFS, length_partFS]

/-! Lookup of a sample inside a canonical state. -/

lemma lookup_mkFS_in (a1 : List SampleData) (x : SampleData) (a2 : List SampleData) :
    lookupFS (mkFS (a1 ++ x :: a2)) (pad3 (1 + a1.length))
      = some (mkFolder (1 + a1.length) x) := by
  unfold mkFS
  rw [show partFS (a1 ++ x :: a2) 1 = partFS (a1 ++ x :: a2) 1 ++ []
    from (List.append_nil _).symm]
  exact lookup_partFS_in a1 x a2 [] 1

lemma hasFile_eq_read (f : Folder) (n : String) :
    f.hasFile n = (f.read n).isSome := rfl

lemma get_sample_info_mkFS (a1 : List SampleData) (x : SampleData) (a2 : List SampleData) :
    get_sample_info (mkFS (a1 ++ x :: a2)) (1 + a1.length)
      = some { number := 1 + a1.length,
               has_audio := x.audio.isSome,
               has_text := x.text.isSome,
               has_metadata := x.meta.isSome,
               text_content := x.text,
               text_length := x.text.map String.length,
               metadata := x.meta } := by
  unfold get_sample_info
  simp only [get_sample_folder]
  rw [lookup_mkFS_in, Option.map_some']
  rcases x with ⟨t, a, m⟩
  rcases t with _ | t <;> rcases a with _ | a <;> rcases m with _ | m <;>
    simp [hasFile_eq_read, read_mkFolder_txt, read_mkFolder_wav, read_mkFolder_meta,
      readTextData, readJsonData]

lemma entrySeconds_mkFolder (k : ℕ) (y : SampleData) :
    entrySeconds (pad3 k, mkFolder k y) = sampleDuration y := by
  unfold entrySeconds
  rw [if_pos (isdigit_pad3 k)]
  simp only [parseNat_pad3]
  rw [read_mkFolder_wav]
  rcases y with ⟨t, a, m⟩
  rcases a with _ | a
  · rfl
  · rcases a with _ | d <;> rfl

lemma totalSeconds_partFS (l : List SampleData) (s : ℕ) :
    totalSeconds (partFS l s) = (l.map sampleDuration).sum := by
  induction l generalizing s with
  | nil => rfl
  | cons y l ih =>
      simp only [partFS, totalSeconds, List.map_cons, List.sum_cons]
      rw [entrySeconds_mkFolder, ih]

lemma runRec_invariant (evs : List RecEvent) : ∀ (s : RecState),
    s.is_recording = true →
    (runRec s evs).is_recording = true ∧
    (runRec s evs).audio_data = s.audio_data ++ capturedChunks s.is_paused evs ∧
    (runRec s evs).stream_open = s.stream_open := by
  induction evs with
  | nil =>
      intro s h
      refine ⟨h, ?_, rfl⟩
      simp [runRec, capturedChunks]
  | cons e rest ih =>
      intro s h
      rcases s with ⟨r, p, buf, st⟩
      simp only at h
      subst h
      cases e with
      | frame c =>
          cases p
          · have h2 := ih ⟨true, false, buf ++ [c], st⟩ rfl
            simpa [runRec, stepRec, audio_callback, capturedChunks] using h2
          · have h2 := ih ⟨true, true, buf, st⟩ rfl
            simpa [runRec, stepRec, audio_callback, capturedChunks] using h2
      | pause =>
          cases p
          · have h2 := ih ⟨true, true, buf, st⟩ rfl
            simpa [runRec, stepRec, pause_recording, capturedChunks] using h2
          · have h2 := ih ⟨true, true, buf, st⟩ rfl
            simpa [runRec, stepRec, pause_recording, capturedChunks] using h2
      | resume =>
          cases p
          · have h2 := ih ⟨true, false, buf, st⟩ rfl
            simpa [runRec, stepRec, resume_recording, capturedChunks] using h2
          · have h2 := ih ⟨true, false, buf, st⟩ rfl
            simpa [runRec, stepRec, resume_recording, capturedChunks] using h2

lemma le_extRun (th : ℚ) (w : List ℚ) : ∀ c, c ≤ extRun th c w := by
  induction w with
  | nil => intro c; simp [extRun]
  | cons x r ih =>
      intro c
      simp only [extRun]
      split
      · exact le_trans (by omega) (ih (c + 1))
      · omega

lemma foldl_silent (th : ℚ) (w : List ℚ) : ∀ (m c : ℕ), c ≤ m →
    (w.foldl (silentStep th) (m, c)).1 = max m (extRun th c w) := by
  induction w with
  | nil => intro m c h; simp [extRun]; omega
  | cons x r ih =>
      intro m c h
      simp only [List.foldl_cons, silentStep, extRun]
      split
      · rw [ih (max m (c + 1)) (c + 1) (by omega)]
        have := le_extRun th r (c + 1)
        omega
      · rw [ih m 0 (by omega)]
        have := le_extRun th r 0
        omega

lemma leadSilent_le_longest (th : ℚ) (w : List ℚ) :
    leadSilent th w ≤ longestSilentRun th w := by
  cases w with
  | nil => exact Nat.le_refl 0
  | cons x r =>
      rw [show longestSilentRun th (x :: r)
        = max (leadSilent th (x :: r)) (longestSilentRun th r) from rfl]
      exact le_max_left _ _

lemma extRun_eq (th : ℚ) (w : List ℚ) : ∀ c,
    extRun th c w = max (c + leadSilent th w) (longestSilentRun th w) := by
  induction w with
  | nil => intro c; simp [extRun, leadSilent, longestSilentRun]
  | cons x r ih =>
      intro c
      by_cases hx : |x| < th
      · simp only [extRun, leadSilent, longestSilentRun, if_pos hx]
        rw [ih (c + 1)]
        have h1 := leadSilent_le_longest th r
        omega
      · simp only [extRun, leadSilent, longestSilentRun, if_neg hx]
        rw [ih 0]
        have h1 := leadSilent_le_longest th r
        omega

lemma maxSilentRun_eq (w : List ℚ) (th : ℚ) :
    maxSilentRun w th = longestSilentRun th w := by
  unfold maxSilentRun
  rw [foldl_silent th w 0 0 (le_refl 0), extRun_eq]
  have := leadSilent_le_longest th w
  omega

/-! Auxiliary facts for the next-number characterization. -/

lemma foldl_max_init_le (ns : List ℕ) : ∀ a, a ≤ ns.foldl max a := by
  induction ns with
  | nil => intro a; exact Nat.le_refl a
  | cons n ns ih =>
      intro a
      exact le_trans (le_max_left a n) (ih (max a n))

lemma foldl_max_mem_le (ns : List ℕ) : ∀ a k, k ∈ ns → k ≤ ns.foldl max a := by
  induction ns with
  | nil => intro a k hk; simp at hk
  | cons n ns ih =>
      intro a k hk
      rcases List.mem_cons.mp hk with rfl | hk
      · exact le_trans (le_max_right a k) (foldl_max_init_le ns (max a k))
      · exact ih (max a n) k hk

lemma foldl_max_le_bound (ns : List ℕ) : ∀ a c, a ≤ c → (∀ k ∈ ns, k ≤ c) →
    ns.foldl max a ≤ c := by
  induction ns with
  | nil => intro a c h _; exact h
  | cons n ns ih =>
      intro a c h hall
      exact ih (max a n) c (by
        have := hall n (by simp)
        omega) (fun k hk => hall k (by simp [hk]))

lemma get_next_of_greatest (fs : FS) (m : ℕ) (hm : m ∈ numericNums fs)
    (hmax : ∀ k ∈ numericNums fs, k ≤ m) :
    get_next_sample_number fs = m + 1 := by
  unfold get_next_sample_number
  rw [if_neg (by
    rw [List.isEmpty_iff]
    exact List.ne_nil_of_mem hm)]
  have h1 : (numericNums fs).foldl max 0 ≤ m :=
    foldl_max_le_bound _ 0 m (Nat.zero_le m) hmax
  have h2 : m ≤ (numericNums fs).foldl max 0 := foldl_max_mem_le _ 0 m hm
  omega

lemma validate_audio_data_some (w : List ℚ) :
    validate_audio_data (some w)
      = if w.length = 0 then (false, some ("Audio recording is empty"))
        else if maxAbs w < 1 / 1000 then
          (false, some ("Audio appears to be silent. Please check your microphone."))
        else (true, none) := rfl

lemma detect_long_silence_some (l : List ℚ) (th md : ℚ) (sr : ℕ) :
    detect_long_silence (some l) th md sr
      = if l.isEmpty then false
        else decide (md ≤ (maxSilentRun l th : ℚ) / (sr : ℚ)) := rfl

/-! The claim theorems. -/

/-- C1: starting from an empty dataset, after every sequence of save and
delete operations the set of existing sample numbers is exactly
1, 2, ..., total_samples, with no gaps and no duplicates. -/
theorem claim_C1_contiguity (fs : FS) (h : Reach fs) :
    numericNums fs = List.range' 1 (get_total_samples fs) := by
  obtain ⟨l, rfl⟩ := reach_canonical h
  rw [get_total_mkFS]
  exact numericNums_partFS l 1

theorem claim_C1_witness :
    numericNums (delete_sample
        ((save_sample ((save_sample [] none ("a") none).1) none ("b") none).1) 1).1
      = List.range' 1 (get_total_samples (delete_sample
          ((save_sample ((save_sample [] none ("a") none).1) none ("b") none).1) 1).1) :=
  claim_C1_contiguity _ (Reach.del _ 1
    (Reach.save _ none ("b") none (Reach.save [] none ("a") none Reach.empty)))

/-- C2: deleting sample n from a canonical dataset with samples 1..N removes
folder n and shifts every higher-numbered sample down by one, renaming its
folder and its artifact files to the new number, while every lower-numbered
sample is untouched. -/
theorem claim_C2_delete_renumber (l1 : List SampleData) (x : SampleData)
    (l2 : List SampleData) :
    delete_sample (mkFS (l1 ++ x :: l2)) (l1.length + 1) = (mkFS (l1 ++ l2), true, none) ∧
    (∀ p (y : SampleData) q, l1 = p ++ y :: q →
      lookupFS (delete_sample (mkFS (l1 ++ x :: l2)) (l1.length + 1)).1 (pad3 (1 + p.length))
          = some (mkFolder (1 + p.length) y) ∧
      lookupFS (mkFS (l1 ++ x :: l2)) (pad3 (1 + p.length))
          = some (mkFolder (1 + p.length) y)) ∧
    (∀ p (y : SampleData) q, l2 = p ++ y :: q →
      lookupFS (mkFS (l1 ++ x :: l2)) (pad3 (1 + (l1.length + 1 + p.length)))
          = some (mkFolder (1 + (l1.length + 1 + p.length)) y) ∧
      lookupFS (delete_sample (mkFS (l1 ++ x :: l2)) (l1.length + 1)).1
            (pad3 (1 + (l1.length + p.length)))
          = some (mkFolder (1 + (l1.length + p.length)) y)) := by
  refine ⟨delete_mkFS l1 x l2, ?_, ?_⟩
  · rintro p y q rfl
    rw [delete_mkFS]
    constructor
    · rw [show (p ++ y :: q) ++ l2 = p ++ y :: (q ++ l2) from by simp]
      exact lookup_mkFS_in p y (q ++ l2)
    · rw [show (p ++ y :: q) ++ x :: l2 = p ++ y :: (q ++ x :: l2) from by simp]
      exact lookup_mkFS_in p y (q ++ x :: l2)
  · rintro p y q rfl
    rw [delete_mkFS]
    constructor
    · rw [show l1 ++ x :: (p ++ y :: q) = (l1 ++ x :: p) ++ y :: q from by simp]
      have h2 := lookup_mkFS_in (l1 ++ x :: p) y q
      rw [show (l1 ++ x :: p).length = l1.length + 1 + p.length from by simp; omega] at h2
      exact h2
    · rw [show l1 ++ (p ++ y :: q) = (l1 ++ p) ++ y :: q from by simp]
      have h2 := lookup_mkFS_in (l1 ++ p) y q
      rw [show (l1 ++ p).length = l1.length + p.length from by simp] at h2
      exact h2

theorem claim_C2_witness :
    delete_sample (mkFS [sdEx 1, sdEx 2, sdEx 3, sdEx 4, sdEx 5]) 3
        = (mkFS [sdEx 1, sdEx 2, sdEx 4, sdEx 5], true, none) ∧
    lookupFS (delete_sample (mkFS [sdEx 1, sdEx 2, sdEx 3, sdEx 4, sdEx 5]) 3).1 (pad3 3)
        = some (mkFolder 3 (sdEx 4)) ∧
    lookupFS (delete_sample (mkFS [sdEx 1, sdEx 2, sdEx 3, sdEx 4, sdEx 5]) 3).1 (pad3 1)
        = some (mkFolder 1 (sdEx 1)) := by
  have h := claim_C2_delete_renumber [sdEx 1, sdEx 2] (sdEx 3) [sdEx 4, sdEx 5]
  exact ⟨h.1, ((h.2.2) [] (sdEx 4) [sdEx 5] rfl).2, ((h.2.1) [] (sdEx 1) [sdEx 2] rfl).1⟩

/-- C3 (amended): a successful save_sample on a canonical dataset allocates
the next number n, get_sample_info(n) then returns the saved text exactly,
and, when a non-empty metadata map was given, a metadata record equal to the
input map; an empty metadata map is treated as absent by the Python
truthiness test and no metadata record is returned for it. -/
theorem claim_C3_roundtrip (l : List SampleData) (a : Option ℚ) (t : String)
    (mo : Option Meta) :
    (save_sample (mkFS l) a t mo).2.1 = true ∧
    ∃ info, get_sample_info (save_sample (mkFS l) a t mo).1
          (get_next_sample_number (mkFS l)) = some info ∧
      info.text_content = some t ∧
      (∀ m, mo = some m → m ≠ [] → info.metadata = some m) := by
  rw [save_mkFS, get_next_mkFS]
  refine ⟨rfl, ?_⟩
  have h := get_sample_info_mkFS l (savedSample a t mo) []
  rw [show 1 + l.length = l.length + 1 from by omega] at h
  refine ⟨_, h, rfl, ?_⟩
  rintro m rfl hm
  simp only [savedSample, normMeta]
  rw [if_neg (by
    rw [List.isEmpty_iff]
    exact hm)]

theorem claim_C3_witness :
    ∃ info, get_sample_info
          (save_sample (mkFS []) (some 2) ("hello") (some [("wpm", "150")])).1
          (get_next_sample_number (mkFS [])) = some info ∧
      info.text_content = some ("hello") ∧ info.metadata = some [("wpm", "150")] := by
  have h := claim_C3_roundtrip [] (some 2) ("hello") (some [("wpm", "150")])
  obtain ⟨-, info, hinfo, htext, hmeta⟩ := h
  exact ⟨info, hinfo, htext, hmeta _ rfl (by simp)⟩

theorem claim_C3_counterexample :
    ∃ info, get_sample_info (save_sample (mkFS []) (some 2) ("hello") (some [])).1
          (get_next_sample_number (mkFS [])) = some info ∧
      info.metadata ≠ some ([] : Meta) := by
  rw [save_mkFS, get_next_mkFS]
  have h := get_sample_info_mkFS [] (savedSample (some 2) ("hello") (some [])) []
  rw [show 1 + List.length ([] : List SampleData)
    = List.length ([] : List SampleData) + 1 from by omega] at h
  refine ⟨_, h, ?_⟩
  simp [savedSample, normMeta]

/-- C4: after starting a session, for every sequence of frame, pause and
resume events, stop_recording returns exactly the concatenation, in arrival
order, of the chunks that arrived while not paused, or none when no such
chunk arrived. -/
theorem claim_C4_capture (s0 : RecState) (evs : List RecEvent)
    (h : s0.is_recording = false) :
    (stop_recording (runRec (start_recording s0) evs)).1
      = if capturedChunks false evs = [] then none
        else some (capturedChunks false evs).flatten := by
  rcases s0 with ⟨r, p, buf, st⟩
  simp only at h
  subst h
  have hstart : start_recording ⟨false, p, buf, st⟩ = ⟨true, false, [], true⟩ := by
    simp [start_recording]
  rw [hstart]
  obtain ⟨hrec, hbuf, -⟩ := runRec_invariant evs ⟨true, false, [], true⟩ rfl
  simp only [List.nil_append] at hbuf
  unfold stop_recording
  rw [hrec]
  simp only [Bool.not_true, Bool.false_eq_true, if_false]
  by_cases hc : capturedChunks false evs = []
  · rw [if_pos (by simp [hbuf, hc])]
    rw [hc]
    rfl
  · rw [if_neg (by simp [hbuf]; exact hc)]
    rw [if_neg hc]
    simp [hbuf]

theorem claim_C4_witness :
    (stop_recording (runRec (start_recording initRec)
        [RecEvent.frame [1, 2], RecEvent.frame [3], RecEvent.frame [4]])).1
      = some [1, 2, 3, 4] := by
  have h := claim_C4_capture initRec
    [RecEvent.frame [1, 2], RecEvent.frame [3], RecEvent.frame [4]] rfl
  rw [h]
  rw [if_neg (by simp [capturedChunks])]
  simp [capturedChunks]

/-- C5: get_next_sample_number returns 1 when no purely numeric
subdirectory exists and the greatest numeric name plus one otherwise; on a
canonical dataset with N samples it returns N plus 1, and saving then
creates exactly sample N plus 1. -/
theorem claim_C5_next_number :
    (∀ fs : FS, numericNums fs = [] → get_next_sample_number fs = 1) ∧
    (∀ (fs : FS) (m : ℕ), m ∈ numericNums fs → (∀ k ∈ numericNums fs, k ≤ m) →
      get_next_sample_number fs = m + 1) ∧
    (∀ l : List SampleData, get_total_samples (mkFS l) = l.length ∧
      get_next_sample_number (mkFS l) = l.length + 1) ∧
    (∀ (l : List SampleData) (a : Option ℚ) (t : String) (mo : Option Meta),
      (save_sample (mkFS l) a t mo).1 = mkFS (l ++ [savedSample a t mo])) := by
  refine ⟨?_, ?_, ?_, ?_⟩
  · intro fs h
    unfold get_next_sample_number
    rw [if_pos (by rw [h]; rfl)]
  · exact get_next_of_greatest
  · exact fun l => ⟨get_total_mkFS l, get_next_mkFS l⟩
  · intro l a t mo
    rw [save_mkFS]

theorem claim_C5_witness :
    get_next_sample_number [] = 1 ∧
    get_next_sample_number [(("007" : String), (⟨[]⟩ : Folder))] = 8 := by
  refine ⟨claim_C5_next_number.1 [] rfl, ?_⟩
  exact claim_C5_next_number.2.1 [(("007" : String), (⟨[]⟩ : Folder))] 7
    (by decide) (by decide)

/-- C6: estimate_total_duration equals the sum over samples of the duration
read from each audio file divided by 60, with missing or unreadable audio
contributing zero; the passed sample rate is not used and the empty dataset
yields zero. -/
theorem claim_C6_duration (l : List SampleData) (r r2 : ℕ) :
    estimate_total_duration (mkFS l) r = (l.map sampleDuration).sum / 60 ∧
    estimate_total_duration (mkFS l) r = estimate_total_duration (mkFS l) r2 ∧
    estimate_total_duration (mkFS []) r = 0 := by
  unfold estimate_total_duration mkFS
  rw [totalSeconds_partFS]
  exact ⟨rfl, rfl, by norm_num [totalSeconds, partFS]⟩

/-- C7: validate_audio_data fails exactly for a missing, empty, or
everywhere-nearly-silent waveform, with a peak exactly at the threshold
passing; validate_text_content passes stripped text of exactly 10
characters, fails 9, and fails empty or whitespace-only text. -/
theorem claim_C7_validation :
    (validate_audio_data none).1 = false ∧
    (validate_audio_data (some [])).1 = false ∧
    (∀ w : List ℚ, w ≠ [] → maxAbs w < 1 / 1000 →
      (validate_audio_data (some w)).1 = false) ∧
    (∀ w : List ℚ, w ≠ [] → 1 / 1000 ≤ maxAbs w →
      (validate_audio_data (some w)).1 = true) ∧
    (∀ w : List ℚ, w ≠ [] → maxAbs w = 1 / 1000 →
      (validate_audio_data (some w)).1 = true) ∧
    (∀ t : String, (pyStrip t).data.length = 10 → (validate_text_content t).1 = true) ∧
    (∀ t : String, (pyStrip t).data.length = 9 → (validate_text_content t).1 = false) ∧
    (∀ t : String, (∀ c ∈ t.data, c.isWhitespace) → (validate_text_content t).1 = false) := by
  have hstriplen : ∀ t : String, t.data = [] → (pyStrip t).data = [] := by
    intro t ht
    simp [pyStrip, ht]
  refine ⟨rfl, rfl, ?_, ?_, ?_, ?_, ?_, ?_⟩
  · intro w hw hm
    rw [validate_audio_data_some, if_neg (by simp [hw]), if_pos hm]
  · intro w hw hm
    rw [validate_audio_data_some, if_neg (by simp [hw]), if_neg (not_lt.mpr hm)]
  · intro w hw hm
    rw [validate_audio_data_some, if_neg (by simp [hw]),
      if_neg (by rw [hm]; exact lt_irrefl _)]
  · intro t ht
    unfold validate_text_content
    rw [if_neg (by
      simp only [Bool.or_eq_true, List.isEmpty_iff]
      rintro (h1 | h1)
      · have := hstriplen t h1
        rw [this] at ht
        simp at ht
      · rw [h1] at ht
        simp at ht)]
    rw [if_neg (by omega)]
  · intro t ht
    unfold validate_text_content
    by_cases hc : (t.data.isEmpty || (pyStrip t).data.isEmpty) = true
    · rw [if_pos hc]
    · rw [if_neg hc, if_pos (by omega)]
  · intro t ht
    unfold validate_text_content
    rw [if_pos (by
      simp only [Bool.or_eq_true, List.isEmpty_iff]
      right
      simp only [pyStrip]
      rw [List.dropWhile_eq_nil_iff.mpr (fun x hx => ht x hx)]
      rfl)]

theorem claim_C7_witness :
    (validate_audio_data (some [1])).1 = true ∧
    (validate_audio_data (some [1 / 2000])).1 = false ∧
    (validate_text_content ("abcdefghij")).1 = true ∧
    (validate_text_content ("abcdefghi")).1 = false ∧
    (validate_text_content ("   ")).1 = false := by
  have hm1 : maxAbs [1] = 1 := by
    unfold maxAbs
    rw [List.foldl_cons, List.foldl_nil, abs_of_nonneg (by norm_num : (0 : ℚ) ≤ 1),
      max_eq_right (by norm_num : (0 : ℚ) ≤ 1)]
  have hm2 : maxAbs [1 / 2000] = 1 / 2000 := by
    unfold maxAbs
    rw [List.foldl_cons, List.foldl_nil,
      abs_of_nonneg (by norm_num : (0 : ℚ) ≤ 1 / 2000),
      max_eq_right (by norm_num : (0 : ℚ) ≤ 1 / 2000)]
  refine ⟨?_, ?_, ?_, ?_, ?_⟩
  · exact claim_C7_validation.2.2.2.1 [1] (by simp) (by rw [hm1]; norm_num)
  · exact claim_C7_validation.2.2.1 [1 / 2000] (by simp) (by rw [hm2]; norm_num)
  · exact claim_C7_validation.2.2.2.2.2.1 ("abcdefghij") (by decide)
  · exact claim_C7_validation.2.2.2.2.2.2.1 ("abcdefghi") (by decide)
  · exact claim_C7_validation.2.2.2.2.2.2.2 ("   ") (by decide)

/-- C8 (amended): for a non-empty waveform, detect_long_silence is true if
and only if the longest run of consecutive samples below the silence
threshold, divided by the sample rate, is at least min_duration (the source
compares with greater-or-equal, not strictly); a missing or empty waveform
gives false. -/
theorem claim_C8_long_silence (w : List ℚ) (th md : ℚ) (sr : ℕ) (hw : w ≠ []) :
    (detect_long_silence (some w) th md sr = true
      ↔ md ≤ (longestSilentRun th w : ℚ) / (sr : ℚ)) ∧
    detect_long_silence none th md sr = false ∧
    detect_long_silence (some []) th md sr = false := by
  refine ⟨?_, rfl, rfl⟩
  rw [detect_long_silence_some]
  rw [if_neg (by rw [List.isEmpty_iff]; exact hw)]
  rw [maxSilentRun_eq]
  exact decide_eq_true_iff

theorem claim_C8_counterexample :
    detect_long_silence (some [0]) (1 / 100) 1 1 = true ∧
    ¬ ((longestSilentRun (1 / 100) [0] : ℚ) / ((1 : ℕ) : ℚ) > 1) := by
  have hrun : maxSilentRun [0] (1 / 100) = 1 := by
    unfold maxSilentRun
    rw [List.foldl_cons, List.foldl_nil]
    norm_num [silentStep]
  have hlong : longestSilentRun (1 / 100) [0] = 1 := by
    norm_num [longestSilentRun, leadSilent]
  constructor
  · rw [detect_long_silence_some, if_neg (by simp), hrun]
    norm_num
  · rw [hlong]
    norm_num

theorem claim_C8_witness :
    detect_long_silence (some [0, 1]) (1 / 100) 2 1 = false ∧
    detect_long_silence none (1 / 100) 2 1 = false := by
  refine ⟨?_, rfl⟩
  have h := (claim_C8_long_silence [0, 1] (1 / 100) 2 1 (by simp)).1
  have hrun : longestSilentRun (1 / 100) [0, 1] = 1 := by
    norm_num [longestSilentRun, leadSilent]
  cases hd : detect_long_silence (some [0, 1]) (1 / 100) 2 1
  · rfl
  · have h2 := h.mp hd
    rw [hrun] at h2
    norm_num at h2

/-- C9: deleting a sample whose folder does not exist returns a failure
with an error message and leaves the tree exactly unchanged. -/
theorem claim_C9_delete_missing (l : List SampleData) (n : ℕ)
    (h : n = 0 ∨ l.length < n) :
    delete_sample (mkFS l) n
      = (mkFS l, false, some ("Sample " ++ natRepr n ++ " not found")) := by
  apply delete_missing
  unfold existsDir
  rw [lookup_mkFS_out l n h]
  rfl

theorem claim_C9_witness :
    delete_sample (mkFS [sdEx 1]) 2
      = (mkFS [sdEx 1], false, some ("Sample " ++ natRepr 2 ++ " not found")) :=
  claim_C9_delete_missing [sdEx 1] 2 (Or.inr (by decide))

/-- C10: stop_recording on an idle session returns none at once and leaves
the buffered chunks, the pause flag and the stream handle unchanged. -/
theorem claim_C10_idle_stop (s : RecState) (h : s.is_recording = false) :
    stop_recording s = (none, s) := by
  unfold stop_recording
  rw [h]
  rfl

theorem claim_C10_witness :
    stop_recording ⟨false, true, [[1, 2]], true⟩ = (none, ⟨false, true, [[1, 2]], true⟩) :=
  claim_C10_idle_stop ⟨false, true, [[1, 2]], true⟩ rfl

end VTDC
